import Mathlib

/-!
Verification of the PawnPP AMX interpreter and loader (src/amx.h, src/amx_loader.h).

The C++ sources are templated over the cell type (uint16_t / uint32_t / uint64_t).
We embed them shallowly: a cell is a natural number below `2 ^ (8 * cb)` where
`cb` is `cell_bytes`; signed views use two's complement via `toSigned`, and every
arithmetic result is reduced with an explicit modulus, mirroring the unsigned
wrap-around of the C++ cell type.
-/

set_option maxHeartbeats 1000000

namespace Amx

/-- Runtime error codes of the interpreter, from `enum class error` in src/amx.h. -/
inductive error where
  | success
  | access_violation
  | access_violation_code
  | invalid_instruction
  | invalid_operand
  | division_with_zero
  | halt
  | bounds
  | callback_abort
deriving DecidableEq, Repr

/-- Size of the value space of a cell of `cb` bytes: `2 ^ cell_bits` with
`cell_bits = 8 * cell_bytes` as in `cell_traits` (src/amx.h). -/
def cellMod (cb : Nat) : Nat := 2 ^ (8 * cb)

/-- Reduce an integer into the unsigned cell range; this is the C++ conversion
`(cell)i` applied to a signed intermediate result. -/
def toCell (cb : Nat) (i : Int) : Nat := (i % (cellMod cb : Int)).toNat

/-- Two's-complement signed reading of a cell, the C++ conversion `(scell)c`. -/
def toSigned (cb : Nat) (c : Nat) : Int :=
  if c < 2 ^ (8 * cb - 1) then (c : Int) else (c : Int) - cellMod cb

/-- Cell addition with unsigned wrap-around. -/
def cadd (cb a b : Nat) : Nat := (a + b) % cellMod cb

/-- Cell subtraction with unsigned wrap-around. -/
def csub (cb a b : Nat) : Nat := toCell cb ((a : Int) - (b : Int))

/-- Interpreter step for `OP_SDIV` (src/amx.h, `case OP_SDIV`): the divisor is
PRI, the dividend is ALT.  A zero divisor yields `division_with_zero`; otherwise
the C++ truncated signed division and remainder are computed, and when the
remainder is nonzero with sign differing from the divisor (tested through the
sign bit of `ALT ^ operand`), the quotient is decremented and the divisor added
to the remainder.  Returns the final pair (PRI, ALT). -/
def op_sdiv (cb pri alt : Nat) : Except error (Nat × Nat) :=
  if pri = 0 then .error .division_with_zero
  else
    let operand := pri
    let q := toCell cb (Int.tdiv (toSigned cb alt) (toSigned cb operand))
    let r := toCell cb (Int.tmod (toSigned cb alt) (toSigned cb operand))
    if r ≠ 0 ∧ toSigned cb (r ^^^ operand) < 0 then
      .ok ((q + (cellMod cb - 1)) % cellMod cb, (r + operand) % cellMod cb)
    else
      .ok (q, r)

/-- Public stack push (src/amx.h `amx::push`): STK is decremented by one cell
first, then the new STK is translated through the data backing (`data_v2p`,
which adds the DAT segment base); on translation failure `access_violation` is
returned with STK already decremented and host memory untouched, otherwise the
translated host word receives `v`.  The host data store is modelled as a
function from host addresses to cell values.  Returns (error, new STK, new
host memory). -/
def push (cb dat : Nat) (translate : Nat → Option Nat) (mem : Nat → Nat)
    (stk v : Nat) : error × Nat × (Nat → Nat) :=
  let stk1 := csub cb stk cb
  match translate (cadd cb dat stk1) with
  | none => (.access_violation, stk1, mem)
  | some p => (.success, stk1, fun a => if a = p then v else mem a)

/-- Register file of the interpreter (the cell-typed members of `class amx`
in src/amx.h). -/
structure Regs where
  PRI : Nat
  ALT : Nat
  FRM : Nat
  CIP : Nat
  DAT : Nat
  COD : Nat
  STP : Nat
  STK : Nat
  HEA : Nat
deriving DecidableEq, Repr

/-- Callback firing (src/amx.h `amx::fire_callback`): the callback receives the
index and the current state, and - holding the `amx` pointer - may mutate the
whole register file (modelled as an arbitrary function on `Regs`); afterwards
ALT, FRM, CIP, STP and STK are restored to the values saved before the call.
Nothing else is saved or restored. -/
def fire_callback (f : Nat → Regs → error × Regs) (index : Nat) (r : Regs) : error × Regs :=
  let res := f index r
  (res.1, { res.2 with ALT := r.ALT, FRM := r.FRM, CIP := r.CIP, STP := r.STP, STK := r.STK })

/-- Callback that increments HEA through the machine pointer; used as a concrete
callback input. -/
def cb_bump_heap : Nat → Regs → error × Regs :=
  fun _ r => (.success, { r with HEA := r.HEA + 1 })

/-- Callback that increments PRI; used as a concrete callback input. -/
def cb_bump_pri : Nat → Regs → error × Regs :=
  fun _ r => (.success, { r with PRI := r.PRI + 1 })

/-- Callback that increments COD; used as a concrete callback input. -/
def cb_bump_cod : Nat → Regs → error × Regs :=
  fun _ r => (.success, { r with COD := r.COD + 1 })

/-- Callback that increments DAT; used as a concrete callback input. -/
def cb_bump_dat : Nat → Regs → error × Regs :=
  fun _ r => (.success, { r with DAT := r.DAT + 1 })

/-- Concrete all-zero register file. -/
def regs0 : Regs := ⟨0, 0, 0, 0, 0, 0, 0, 0, 0⟩

/-- Loader error codes (src/amx_loader.h `enum class loader_error`). -/
inductive loader_error where
  | success
  | invalid_file
  | unsupported_file_version
  | unsupported_amx_version
  | feature_not_supported
  | wrong_cell_size
  | native_not_resolved
  | unknown
deriving DecidableEq, Repr

/-- Sentinel callback index for the single-step hook, `(cell)(scell)-1`. -/
def cbid_single_step (cb : Nat) : Nat := cellMod cb - 1

/-- Sentinel callback index for the break hook, `(cell)(scell)-2`. -/
def cbid_break (cb : Nat) : Nat := cellMod cb - 2

/-- Routing outcome of the loader's callback broker: one of the two debug
hooks, an error return, or dispatch into slot `i` of the native vector. -/
inductive cb_route where
  | single_step_hook
  | break_hook
  | err (e : error)
  | native (i : Nat)
deriving DecidableEq, Repr

/-- Demultiplexer `loader::amx_callback` (src/amx_loader.h): the two sentinel
indices are routed to the debug hooks; any other index is bounds-checked with
`index > natives.size()` and otherwise, after the argument-count cell at STK
translates (`stk_ok`), dispatched to the native at position `index`. -/
def amx_callback (cb natives_len index : Nat) (stk_ok : Bool) : cb_route :=
  if index = cbid_single_step cb then .single_step_hook
  else if index = cbid_break cb then .break_hook
  else if index > natives_len then .err .invalid_operand
  else if stk_ok then .native index
  else .err .access_violation

/-- Translate of `memory_backing_paged_buffers` (src/amx.h): the top `ib` bits
of the virtual address select a page slot, modelled as a function from page
index to an optional host buffer base plus the slot's valid byte size.
Misaligned addresses fail, unpopulated slots fail, and the in-page byte offset
is checked against the recorded size. -/
def paged_translate (cb ib : Nat) (mappings : Nat → Option Nat × Nat) (va : Nat) : Option Nat :=
  if va % cb ≠ 0 then none
  else
    let m := mappings (va >>> (8 * cb - ib))
    match m.1 with
    | none => none
    | some buf =>
      let off := va &&& (2 ^ (8 * cb - ib) - 1)
      if off ≥ m.2 then none
      else some (buf + off / cb)

/-- Translate of `memory_backing_contignous_buffer` (src/amx.h): a single
buffer mapped at virtual address zero; any `va` below the recorded byte size
translates to `buf + va / cell_bytes`, with no alignment check. -/
def contiguous_translate (cb buf size va : Nat) : Option Nat :=
  if va ≥ size then none
  else some (buf + va / cb)

/-- Aligned offset mask of `memory_backing_partial_address_space` (src/amx.h):
the low `vb` valid bits with the misalignment bits cleared
(`offset_mask & ~misalign_mask`). -/
def pas_offset_mask_align (cb vb : Nat) : Nat :=
  (2 ^ vb - 1) &&& (cellMod cb - cb)

/-- Translate of `memory_backing_partial_address_space` (src/amx.h): the
source computes the host pointer `(cell*)((va & offset_mask_align) |
_backing_bits)`, which is the null pointer — a failed translation — exactly
when that value is zero; the failure condition does not involve the
alignment of `va`. -/
def pas_translate (cb vb backing_bits va : Nat) : Option Nat :=
  let p := (va &&& pas_offset_mask_align cb vb) ||| backing_bits
  if p = 0 then none else some p

/-- Compare loop of `OP_CMPS` (src/amx.h): the source sets `PRI = 0` before
this loop and then uses PRI both as the running difference and as the base
address of the first block (`DATA(PRI + i)`), so the guard `PRI == 0` holds in
every iteration that reads memory and the first block is read from address
`0 + i`.  The fuel argument bounds the iteration count by `operand`; since the
counter advances by `cell_bytes >= 1` per iteration, fuel can run out only in
the degenerate wrap-around case `operand > cellMod - cell_bytes` in which the
C++ loop never terminates. -/
def cmps_loop (cb : Nat) (data : Nat → Option Nat) (alt operand : Nat) :
    Nat → Nat → Nat → Except error Nat
  | 0, _, pri => .ok pri
  | fuel + 1, i, pri =>
    if pri = 0 ∧ i < operand then
      match data (cadd cb pri i) with
      | none => .error .access_violation
      | some tmp =>
        match data (cadd cb alt i) with
        | none => .error .access_violation
        | some v => cmps_loop cb data alt operand fuel (cadd cb i cb) (csub cb v tmp)
    else .ok pri

/-- Interpreter step for `OP_CMPS` (src/amx.h, `case OP_CMPS`): PRI is zeroed
and the loop is entered; the pre-instruction PRI (the first parameter) is
never read because the zeroing precedes the loop.  `data` is the composed
`data_v2p` translation. -/
def op_cmps (cb : Nat) (data : Nat → Option Nat) (pri alt operand : Nat) : Except error Nat :=
  cmps_loop cb data alt operand operand 0 0

/-- Concrete data segment for exercising `OP_CMPS`: cell 0 holds 7, cell 8
holds 5, cell 16 holds 7, everything else unmapped. -/
def cmps_data : Nat → Option Nat :=
  fun va =>
    if va = 0 then some 7
    else if va = 8 then some 5
    else if va = 16 then some 7
    else none

/-- Interpreter step for `OP_LODB_I` (src/amx.h, `case OP_LODB_I`): PRI holds
the data address, the operand is the access width in bytes.  The address is
aligned down with `PRI & ~misalign_mask` (the complement of `cell_bytes - 1`
within the cell width is `cellMod - cell_bytes`), the sub-cell bit position is
`(PRI & misalign_mask) * 8`, and an access whose last byte `PRI + operand - 1`
(cell arithmetic) aligns down differently spans two cells and is rejected.
The aligned address is translated, and the loaded cell is shifted and masked
according to the width; the width dispatch mirrors the source `switch` with
its `default: invalid_operand`.  Returns the new PRI. -/
def op_lodb_i (cb : Nat) (data : Nat → Option Nat) (mem : Nat → Nat)
    (pri operand : Nat) : Except error Nat :=
  let subcell_mask := cb - 1
  let aligned := pri &&& (cellMod cb - cb)
  let subcell_bits := (pri &&& subcell_mask) * 8
  if aligned ≠ (pri + operand + (cellMod cb - 1)) % cellMod cb &&& (cellMod cb - cb) then
    .error .invalid_operand
  else
    match data aligned with
    | none => .error .access_violation
    | some p =>
      if operand = 1 then .ok (mem p >>> subcell_bits &&& 0xFF)
      else if operand = 2 then .ok (mem p >>> subcell_bits &&& 0xFFFF)
      else if operand = 4 then .ok (mem p >>> subcell_bits &&& 0xFFFFFFFF)
      else .error .invalid_operand

/-- Interpreter step for `OP_STRB_I` (src/amx.h, `case OP_STRB_I`): ALT holds
the data address, PRI the value, the operand the width in bytes.  Same
alignment, span check and translation as `OP_LODB_I`; the stored cell keeps
its bits outside the `width` bytes at the sub-cell position and receives the
masked value shifted into place (each shift truncating at the cell width,
matching the C++ cell-typed arithmetic).  The three width cases differ only
in the mask, as in the source `switch`.  Returns the updated host memory. -/
def op_strb_i (cb : Nat) (data : Nat → Option Nat) (mem : Nat → Nat)
    (pri alt operand : Nat) : Except error (Nat → Nat) :=
  let subcell_mask := cb - 1
  let aligned := alt &&& (cellMod cb - cb)
  let subcell_bits := (alt &&& subcell_mask) * 8
  let merge := fun (p mask : Nat) => fun a =>
    if a = p then
      (mem p &&& ((cellMod cb - 1) ^^^ (mask <<< subcell_bits) % cellMod cb)) |||
        ((pri &&& mask) <<< subcell_bits % cellMod cb)
    else mem a
  if aligned ≠ (alt + operand + (cellMod cb - 1)) % cellMod cb &&& (cellMod cb - cb) then
    .error .invalid_operand
  else
    match data aligned with
    | none => .error .access_violation
    | some p =>
      if operand = 1 then .ok (merge p 0xFF)
      else if operand = 2 then .ok (merge p 0xFFFF)
      else if operand = 4 then .ok (merge p 0xFFFFFFFF)
      else .error .invalid_operand

/-- Opcode number of `OP_CASETBL` in the opcode enumeration of `amx::step`
(src/amx.h); the enumeration starts at `OP_NOP = 0` and `OP_CASETBL` is the
75th entry. -/
def OP_CASETBL : Nat := 74

/-- Record-scanning loop of `OP_SWITCH` (src/amx.h): `casetbl` points at the
next record's test value; the test value and then the displacement are read
(each advancing `casetbl` by one cell), and a match sets CIP to
`casetbl - 2 cells + displacement` with `casetbl` already past the record;
otherwise the record count is decremented and scanning continues.  The
recursion is on the record count read from the table. -/
def switch_loop (cb : Nat) (code : Nat → Option Nat) (pri : Nat) :
    Nat → Nat → Nat → Except error Nat
  | 0, _, cip => .ok cip
  | n + 1, casetbl, cip =>
    match code casetbl with
    | none => .error .access_violation
    | some test_val =>
      match code (cadd cb casetbl cb) with
      | none => .error .access_violation
      | some match_cip =>
        if pri = test_val then
          .ok (cadd cb (csub cb (cadd cb casetbl (2 * cb)) (2 * cb)) match_cip)
        else
          switch_loop cb code pri n (cadd cb casetbl (2 * cb)) cip

/-- Interpreter step for `OP_SWITCH` (src/amx.h, `case OP_SWITCH`): `cip` is
the CIP value after the operand fetch (pointing one cell past the operand).
The case table lives at `cip - 2 cells + operand`; its first cell must be the
CASETBL opcode (else `invalid_operand`), then the record count and the
default-branch displacement are read and the records are scanned.  `code` is
the composed `code_v2p` translation; table reads use the CODEDATA macro,
which fails with the plain `access_violation` error. -/
def op_switch (cb : Nat) (code : Nat → Option Nat) (pri cip operand : Nat) : Except error Nat :=
  let casetbl0 := cadd cb (csub cb cip (2 * cb)) operand
  match code casetbl0 with
  | none => .error .access_violation
  | some marker =>
    if marker ≠ OP_CASETBL then .error .invalid_operand
    else
      match code (cadd cb casetbl0 cb) with
      | none => .error .access_violation
      | some record_count =>
        match code (cadd cb casetbl0 (2 * cb)) with
        | none => .error .access_violation
        | some nomatch_disp =>
          switch_loop cb code pri record_count (cadd cb casetbl0 (3 * cb))
            (cadd cb (csub cb (cadd cb casetbl0 (3 * cb)) (2 * cb)) nomatch_disp)

/-- Concrete code segment holding a SWITCH case table at address 100: the
CASETBL marker, record count 2, default displacement 30, and the records
(5, 20) and (7, 40). -/
def switch_code : Nat → Option Nat :=
  fun a =>
    if a = 100 then some 74
    else if a = 104 then some 2
    else if a = 108 then some 30
    else if a = 112 then some 5
    else if a = 116 then some 20
    else if a = 120 then some 7
    else if a = 124 then some 40
    else none

/-- Concrete data translation for the byte-access examples: only the aligned
address 4 is mapped, to host word 0. -/
def strb_data : Nat → Option Nat :=
  fun va => if va = 4 then some 0 else none

/-- Concrete host store for the byte-access examples: every word holds the
all-ones 32-bit cell. -/
def strb_mem : Nat → Nat := fun _ => 4294967295

/-- Concrete data translation used by the push examples: only virtual
addresses 4 and 8 are mapped, to host words 0 and 1. -/
def push_translate : Nat → Option Nat :=
  fun va => if va = 4 then some 0 else if va = 8 then some 1 else none

/-- Concrete host data store used by the push examples. -/
def push_mem : Nat → Nat := fun _ => 0

/-- Read the byte at `off` of the module buffer; the loader only dereferences
offsets it has bounds-checked, so the default is never observable. -/
def read_u8 (buf : List Nat) (off : Nat) : Nat := buf.getD off 0

/-- Little-endian 16-bit read, `detail::read_le<uint16_t>` (src/amx_loader.h)
on a little-endian host. -/
def read_le16 (buf : List Nat) (off : Nat) : Nat :=
  read_u8 buf off + 256 * read_u8 buf (off + 1)

/-- Little-endian 32-bit read, `detail::read_le<uint32_t>` (src/amx_loader.h)
on a little-endian host. -/
def read_le32 (buf : List Nat) (off : Nat) : Nat :=
  read_u8 buf off + 256 * read_u8 buf (off + 1) + 65536 * read_u8 buf (off + 2)
    + 16777216 * read_u8 buf (off + 3)

/-- Little-endian read of an `n`-byte cell, as produced by `select_array`
copying raw bytes into cells on a little-endian host. -/
def read_le_cell (buf : List Nat) (off : Nat) : Nat → Nat
  | 0 => 0
  | n + 1 => read_u8 buf off + 256 * read_le_cell buf (off + 1) n

/-- Bounds checks shared by `detail::select_array` and `detail::iter_valarray`
(src/amx_loader.h): both ends of the half-open byte range must lie inside the
buffer, the range must be ordered and its length a multiple of the entry
size. -/
def range_ok (buf_size begin_off end_off entry : Nat) : Bool :=
  begin_off ≤ buf_size && end_off ≤ buf_size && begin_off ≤ end_off
    && (end_off - begin_off) % entry = 0

/-- Cell extraction, `detail::select_array<cell>` followed by the `from_le`
normalization loop (identity on a little-endian host): the byte range
`[begin_off, end_off)` is reinterpreted as little-endian cells of `cb`
bytes. -/
def select_cells (cb : Nat) (buf : List Nat) (begin_off end_off : Nat) : Option (List Nat) :=
  if range_ok buf.length begin_off end_off cb then
    some ((List.range ((end_off - begin_off) / cb)).map
      (fun i => read_le_cell buf (begin_off + cb * i) cb))
  else none

/-- NUL-terminated name scan of the symbol-table closures (src/amx_loader.h):
starting at `off`, the bytes before the first NUL byte; fails when no NUL
occurs before the end of the buffer (including when `off` is past the end). -/
def find_name (buf : List Nat) (off : Nat) : Option (List Nat) :=
  match (buf.drop off).findIdx? (fun b => b == 0) with
  | none => none
  | some k => some ((buf.drop off).take k)

/-- Record loop of `iter_valarray` over the publics or pubvars table: each
`defsize`-byte record yields a 4-byte address and a 4-byte name offset; the
name is scanned and the pair collected (insertion order of the source's
name-to-address map is immaterial here). -/
def parse_symbols (buf : List Nat) (defsize : Nat) : Nat → Nat → Option (List (Nat × List Nat))
  | _, 0 => some []
  | off, n + 1 =>
    let address := read_le32 buf off
    let nameofs := read_le32 buf (off + 4)
    match find_name buf nameofs with
    | none => none
    | some name =>
      match parse_symbols buf defsize (off + defsize) n with
      | none => none
      | some rest => some ((address, name) :: rest)

/-- Publics or pubvars table: bounds checks of `iter_valarray` followed by the
record loop. -/
def parse_table (buf : List Nat) (begin_off end_off defsize : Nat) :
    Option (List (Nat × List Nat)) :=
  if range_ok buf.length begin_off end_off defsize then
    parse_symbols buf defsize begin_off ((end_off - begin_off) / defsize)
  else none

/-- Outcome of the native table iteration: all names resolved (with the index
of the first matching host registration per record, mirroring the
`std::find_if` linear scan), a malformed record (name scan or bounds failure,
reported as `invalid_file`), or a name missing from the host registrations
(reported as `native_not_resolved`). -/
inductive native_parse where
  | resolved (natives : List Nat)
  | invalid
  | not_found
deriving DecidableEq, Repr

/-- Record loop of `iter_valarray` over the natives table: the iteration stops
at the first failing record, which determines the error flavour. -/
def parse_natives (buf : List Nat) (defsize : Nat) (reg : List (List Nat)) :
    Nat → Nat → native_parse
  | _, 0 => .resolved []
  | off, n + 1 =>
    let nameofs := read_le32 buf (off + 4)
    match find_name buf nameofs with
    | none => .invalid
    | some name =>
      match List.indexOf? name reg with
      | none => .not_found
      | some idx =>
        match parse_natives buf defsize reg (off + defsize) n with
        | .resolved rest => .resolved (idx :: rest)
        | e => e

/-- Natives table: bounds checks of `iter_valarray` followed by the record
loop; a bounds failure is a plain `invalid_file` (the not-found flag is still
unset there). -/
def parse_native_table (buf : List Nat) (begin_off end_off defsize : Nat)
    (reg : List (List Nat)) : native_parse :=
  if range_ok buf.length begin_off end_off defsize then
    parse_natives buf defsize reg begin_off ((end_off - begin_off) / defsize)
  else .invalid

/-- Magic value for the engine's cell width, `loader::expected_magic`
(src/amx_loader.h): 0xF1E0 for 32-bit, 0xF1E1 for 64-bit, 0xF1E2 for 16-bit
cells. -/
def expected_magic (cb : Nat) : Nat :=
  if 8 * cb = 32 then 0xF1E0
  else if 8 * cb = 64 then 0xF1E1
  else if 8 * cb = 16 then 0xF1E2
  else 0

/-- Result state of a successful `loader::init`: the extracted images, symbol
tables, and the registers the loader initializes on its owned machine. -/
structure LoaderState where
  code : List Nat
  data : List Nat
  data_oldsize : Nat
  main : Nat
  publics : List (Nat × List Nat)
  pubvars : List (Nat × List Nat)
  natives : List Nat
  COD : Nat
  DAT : Nat
  STK : Nat
  STP : Nat
  HEA : Nat

/-- The loader's `init` (src/amx_loader.h): header validation in source order,
code and data image extraction, data extension by
`(stp - hea) + cell_bytes - 1` bytes' worth of zero cells (the subtraction
wrapping at 32 bits as the header fields are `uint32_t`), main resolution,
the three symbol tables, the two map calls into the templated memory manager
(modelled by the oracles `mapCode`/`mapData` from cell count to optional base
address), and finally the register initialization, where the size arithmetic
wraps as `size_t` (64 bits) before the cast to cell width.  `reg` is the host
native registration list (names only; the callback pointers are irrelevant to
the loader's control flow). -/
def init (cb : Nat) (buf : List Nat) (reg : List (List Nat))
    (mapCode mapData : Nat → Option Nat) : Except loader_error LoaderState :=
  if buf.length < 60 then .error .invalid_file
  else
    let size := read_le32 buf 0
    let magic := read_le16 buf 4
    let file_version := read_u8 buf 6
    let amx_version := read_u8 buf 7
    let flags := read_le16 buf 8
    let defsize := read_le16 buf 10
    let cod := read_le32 buf 12
    let dat := read_le32 buf 16
    let hea := read_le32 buf 20
    let stp := read_le32 buf 24
    let cip := read_le32 buf 28
    let publics := read_le32 buf 32
    let natives := read_le32 buf 36
    let libraries := read_le32 buf 40
    let pubvars := read_le32 buf 44
    let tags := read_le32 buf 48
    if magic ≠ expected_magic cb then
      if magic = 0xF1E0 ∨ magic = 0xF1E1 ∨ magic = 0xF1E2 then .error .wrong_cell_size
      else .error .invalid_file
    else if size > buf.length then .error .invalid_file
    else if file_version ≠ 11 then .error .unsupported_file_version
    else if amx_version > 11 then .error .unsupported_amx_version
    else if flags &&& 1 ≠ 0 ∨ flags &&& 8 ≠ 0 then .error .feature_not_supported
    else if defsize < 8 then .error .invalid_file
    else
      match select_cells cb buf cod dat with
      | none => .error .invalid_file
      | some code =>
        match select_cells cb buf dat hea with
        | none => .error .invalid_file
        | some data0 =>
          let extra_size := (stp + 2 ^ 32 - hea) % 2 ^ 32 + cb - 1
          let data_oldsize := data0.length
          let data := data0 ++ List.replicate (extra_size / cb) 0
          let main := if cip = 2 ^ 32 - 1 then 0 else cip
          match parse_table buf publics natives defsize with
          | none => .error .invalid_file
          | some publics_list =>
            match parse_native_table buf natives libraries defsize reg with
            | .invalid => .error .invalid_file
            | .not_found => .error .native_not_resolved
            | .resolved natives_list =>
              if libraries ≠ pubvars then .error .feature_not_supported
              else
                match parse_table buf pubvars tags defsize with
                | none => .error .invalid_file
                | some pubvars_list =>
                  match mapCode code.length with
                  | none => .error .unknown
                  | some code_base =>
                    match mapData data.length with
                    | none => .error .unknown
                    | some data_base =>
                      .ok {
                        code := code
                        data := data
                        data_oldsize := data_oldsize
                        main := main
                        publics := publics_list
                        pubvars := pubvars_list
                        natives := natives_list
                        COD := code_base
                        DAT := data_base
                        STK := (data.length + 2 ^ 64 - 1) % 2 ^ 64 * cb % 2 ^ 64 % cellMod cb
                        STP := (data.length + 2 ^ 64 - 1) % 2 ^ 64 * cb % 2 ^ 64 % cellMod cb
                        HEA := data_oldsize * cb % 2 ^ 64 % cellMod cb
                      }

/-- Concrete 60-byte module header whose magic field (offset 4) holds 0xF1E1,
the 64-bit magic; all other fields zero. -/
def magic_buf_64 : List Nat := [0, 0, 0, 0, 225, 241] ++ List.replicate 54 0

/-- Concrete 60-byte module header whose magic field holds 0x1234, not a
supported magic; all other fields zero. -/
def magic_buf_bad : List Nat := [0, 0, 0, 0, 52, 18] ++ List.replicate 54 0

/-- Concrete minimal valid 32-bit module: size 60, magic 0xF1E0, versions 11,
defsize 8, all segment and table offsets 60 (empty code, data and tables)
except stp = 68, giving two cells of heap/stack extension. -/
def c9_buf : List Nat :=
  [60, 0, 0, 0, 224, 241, 11, 11, 0, 0, 8, 0,
   60, 0, 0, 0, 60, 0, 0, 0, 60, 0, 0, 0, 68, 0, 0, 0, 0, 0, 0, 0,
   60, 0, 0, 0, 60, 0, 0, 0, 60, 0, 0, 0, 60, 0, 0, 0, 60, 0, 0, 0,
   0, 0, 0, 0, 0, 0, 0, 0]

/-- The loader state produced by a successful init on `c9_buf`. -/
def c9_state : LoaderState :=
  { code := [], data := [0, 0], data_oldsize := 0, main := 0, publics := [],
    pubvars := [], natives := [], COD := 0, DAT := 0, STK := 4, STP := 4, HEA := 0 }

theorem cellMod_pos (cb : Nat) : 0 < cellMod cb := Nat.two_pow_pos _

theorem two_mul_half_cellMod (cb : Nat) (hcb : 1 ≤ cb) :
    2 ^ (8 * cb - 1) * 2 = cellMod cb := by
  unfold cellMod
  rw [← Nat.pow_succ]
  congr 1
  omega

theorem toCell_coe_int (cb : Nat) (i : Int) :
    ((toCell cb i : Nat) : Int) = i % (cellMod cb : Int) := by
  unfold toCell
  exact Int.toNat_of_nonneg (Int.emod_nonneg i (by exact_mod_cast (cellMod_pos cb).ne'))

theorem toCell_lt (cb : Nat) (i : Int) : toCell cb i < cellMod cb := by
  have h := toCell_coe_int cb i
  have h2 : i % (cellMod cb : Int) < (cellMod cb : Int) :=
    Int.emod_lt_of_pos i (by exact_mod_cast cellMod_pos cb)
  omega

theorem half_cast (cb : Nat) : ((2 ^ (8 * cb - 1) : Nat) : Int) = (2 : Int) ^ (8 * cb - 1) := by
  push_cast
  ring

theorem toSigned_emod (cb : Nat) (c : Nat) :
    toSigned cb c % (cellMod cb : Int) = (c : Int) % (cellMod cb : Int) := by
  unfold toSigned
  split
  · rfl
  · conv_rhs => rw [show (c : Int) = ((c : Int) - cellMod cb) + cellMod cb * 1 by ring]
    rw [Int.add_mul_emod_self_left]

theorem toSigned_bounds (cb : Nat) (hcb : 1 ≤ cb) (c : Nat) (hc : c < cellMod cb) :
    -(2 ^ (8 * cb - 1) : Int) ≤ toSigned cb c ∧ toSigned cb c < 2 ^ (8 * cb - 1) := by
  have hM := two_mul_half_cellMod cb hcb
  have hH : (0:Nat) < 2 ^ (8 * cb - 1) := Nat.two_pow_pos _
  have hlink := half_cast cb
  unfold toSigned
  split <;> constructor <;> omega

theorem toSigned_eq_zero_iff (cb : Nat) (c : Nat) (hc : c < cellMod cb) :
    toSigned cb c = 0 ↔ c = 0 := by
  have hH : (0:Nat) < 2 ^ (8 * cb - 1) := Nat.two_pow_pos _
  unfold toSigned
  split <;> constructor <;> intro h <;> omega

theorem toSigned_eq (cb : Nat) (hcb : 1 ≤ cb) (c : Nat) (hc : c < cellMod cb) (i : Int)
    (hmod : (c : Int) % (cellMod cb : Int) = i % (cellMod cb : Int))
    (hlo : -(2 ^ (8 * cb - 1) : Int) ≤ i) (hhi : i < 2 ^ (8 * cb - 1)) :
    toSigned cb c = i := by
  have hM := two_mul_half_cellMod cb hcb
  have hH : (0:Nat) < 2 ^ (8 * cb - 1) := Nat.two_pow_pos _
  have hlink := half_cast cb
  have h1 : (c : Int) % (cellMod cb : Int) = (c : Int) :=
    Int.emod_eq_of_lt (by positivity) (by exact_mod_cast hc)
  have h2 : i % (cellMod cb : Int) = i ∨ i % (cellMod cb : Int) = i + cellMod cb := by
    rcases le_or_lt 0 i with h | h
    · left
      exact Int.emod_eq_of_lt h (by omega)
    · right
      conv_lhs => rw [show i = (i + cellMod cb) + cellMod cb * (-1) by ring]
      rw [Int.add_mul_emod_self_left]
      exact Int.emod_eq_of_lt (by omega) (by omega)
  unfold toSigned
  split <;> omega

theorem toSigned_neg_iff (cb : Nat) (hcb : 1 ≤ cb) (c : Nat) (hc : c < cellMod cb) :
    toSigned cb c < 0 ↔ 2 ^ (8 * cb - 1) ≤ c := by
  have hM := two_mul_half_cellMod cb hcb
  have hlink := half_cast cb
  unfold toSigned
  split <;> omega

theorem toCell_toSigned (cb : Nat) (c : Nat) (hc : c < cellMod cb) :
    toCell cb (toSigned cb c) = c := by
  have h := toCell_coe_int cb (toSigned cb c)
  rw [toSigned_emod cb c] at h
  have h1 : (c : Int) % (cellMod cb : Int) = (c : Int) :=
    Int.emod_eq_of_lt (by positivity) (by exact_mod_cast hc)
  omega

theorem testBit_high_iff (n x : Nat) (hx : x < 2 ^ (n + 1)) :
    x.testBit n = true ↔ 2 ^ n ≤ x := by
  have hpos : 0 < 2 ^ n := Nat.two_pow_pos n
  have h2 : x / 2 ^ n < 2 := by
    rw [Nat.div_lt_iff_lt_mul hpos]
    calc x < 2 ^ (n + 1) := hx
    _ = 2 ^ n * 2 := by rw [Nat.pow_succ]
    _ = 2 * 2 ^ n := by ring
  have h3 : 2 ^ n ≤ x ↔ 1 ≤ x / 2 ^ n := by
    rw [Nat.le_div_iff_mul_le hpos, one_mul]
  rw [Nat.testBit_to_div_mod]
  simp only [decide_eq_true_eq]
  rw [h3]
  generalize x / 2 ^ n = d at h2 ⊢
  omega

theorem xor_high_bit (cb : Nat) (hcb : 1 ≤ cb) (x y : Nat)
    (hx : x < cellMod cb) (hy : y < cellMod cb) :
    (2 ^ (8 * cb - 1) ≤ (x ^^^ y)) ↔ ¬((2 ^ (8 * cb - 1) ≤ x) ↔ (2 ^ (8 * cb - 1) ≤ y)) := by
  have hsucc : 8 * cb - 1 + 1 = 8 * cb := by omega
  have hxor : x ^^^ y < cellMod cb := Nat.xor_lt_two_pow hx hy
  have hx' : x < 2 ^ (8 * cb - 1 + 1) := by rw [hsucc]; exact hx
  have hy' : y < 2 ^ (8 * cb - 1 + 1) := by rw [hsucc]; exact hy
  have hxor' : x ^^^ y < 2 ^ (8 * cb - 1 + 1) := by rw [hsucc]; exact hxor
  rw [← testBit_high_iff _ _ hxor', ← testBit_high_iff _ _ hx', ← testBit_high_iff _ _ hy',
    Nat.testBit_xor]
  cases hbx : x.testBit (8 * cb - 1) <;> cases hby : y.testBit (8 * cb - 1) <;> simp

theorem toCell_congr (cb : Nat) (i j : Int)
    (h : i % (cellMod cb : Int) = j % (cellMod cb : Int)) : toCell cb i = toCell cb j := by
  unfold toCell
  rw [h]

theorem emod_small (i M : Int) (hM : 0 < M) (h1 : -M ≤ i) (h2 : i < M) :
    i % M = if 0 ≤ i then i else i + M := by
  split
  · exact Int.emod_eq_of_lt ‹_› h2
  · conv_lhs => rw [show i = (i + M) + M * (-1) by ring]
    rw [Int.add_mul_emod_self_left]
    exact Int.emod_eq_of_lt (by omega) (by omega)

theorem tmod_neg_dividend (a b : Int) : (-a).tmod b = -(a.tmod b) := by
  rw [Int.tmod_def, Int.tmod_def, Int.neg_tdiv]
  ring

theorem tmod_nonpos_dividend (a b : Int) (ha : a ≤ 0) : a.tmod b ≤ 0 := by
  have h := tmod_neg_dividend (-a) b
  simp only [neg_neg] at h
  have h2 := Int.tmod_nonneg b (show (0:Int) ≤ -a by omega)
  omega

theorem tmod_bounds (a b : Int) (hb : b ≠ 0) :
    -((b.natAbs : Int)) < a.tmod b ∧ a.tmod b < b.natAbs := by
  have hn : (0:Int) < (b.natAbs : Int) := by
    have := Int.natAbs_pos.mpr hb
    omega
  have hne : a.tmod b = a.tmod (b.natAbs : Int) := by
    rcases Int.natAbs_eq b with h | h
    · conv_lhs => rw [h]
    · conv_lhs => rw [h, Int.tmod_neg]
  rw [hne]
  constructor
  · rcases le_or_lt 0 a with ha | ha
    · have := Int.tmod_nonneg (b.natAbs : Int) ha
      omega
    · have h1 := tmod_neg_dividend (-a) (b.natAbs : Int)
      simp only [neg_neg] at h1
      have h2 := Int.tmod_lt_of_pos (-a) hn
      omega
  · exact Int.tmod_lt_of_pos a hn

/-- C1: for every nonzero divisor PRI = b and dividend ALT = a, `OP_SDIV` leaves
a quotient q in PRI and a remainder r in ALT with a = q * b + r in cell
arithmetic, the remainder weakly sharing the divisor's sign, and the remainder
strictly smaller than the divisor in magnitude (floored division). -/
theorem C1_sdiv_floored (cb a b : Nat) (hcb : 1 ≤ cb)
    (ha : a < cellMod cb) (hb : b < cellMod cb) (hb0 : b ≠ 0) :
    ∃ q r, op_sdiv cb b a = .ok (q, r) ∧
      toCell cb (toSigned cb q * toSigned cb b + toSigned cb r) = a ∧
      0 ≤ toSigned cb r * Int.sign (toSigned cb b) ∧
      (toSigned cb r).natAbs < (toSigned cb b).natAbs := by
  have hM := two_mul_half_cellMod cb hcb
  have hMpos := cellMod_pos cb
  have hH : (0:Nat) < 2 ^ (8 * cb - 1) := Nat.two_pow_pos _
  have hlink := half_cast cb
  have hMpos' : (0:Int) < (cellMod cb : Int) := by exact_mod_cast hMpos
  set sa := toSigned cb a with hsa
  set sb := toSigned cb b with hsb
  have hsb0 : sb ≠ 0 := fun h => hb0 ((toSigned_eq_zero_iff cb b hb).mp h)
  have hbnds_a := toSigned_bounds cb hcb a ha
  have hbnds_b := toSigned_bounds cb hcb b hb
  have hb_abs : sb = (sb.natAbs : Int) ∨ sb = -(sb.natAbs : Int) := Int.natAbs_eq sb
  have habs_le : (sb.natAbs : Int) ≤ ((2 ^ (8 * cb - 1) : Nat) : Int) := by omega
  set q0 := sa.tdiv sb with hq0
  set r0 := sa.tmod sb with hr0
  have hkey : sb * q0 + r0 = sa := Int.tdiv_add_tmod sa sb
  have hrb := tmod_bounds sa sb hsb0
  set qc := toCell cb q0 with hqc
  set rc := toCell cb r0 with hrc
  have hqc_int : (qc : Int) = q0 % (cellMod cb : Int) := toCell_coe_int cb q0
  have hrc_int : (rc : Int) = if 0 ≤ r0 then r0 else r0 + (cellMod cb : Int) := by
    rw [hrc, toCell_coe_int cb r0]
    exact emod_small r0 _ hMpos' (by omega) (by omega)
  have hqlt : qc < cellMod cb := toCell_lt cb q0
  have hrlt : rc < cellMod cb := toCell_lt cb r0
  -- the remainder cell read back as a signed value is exactly r0
  have hsr : toSigned cb rc = r0 := by
    apply toSigned_eq cb hcb rc hrlt r0
    · rw [hrc, toCell_coe_int cb r0]
      exact Int.emod_emod_of_dvd r0 dvd_rfl
    · omega
    · omega
  have hrc0 : rc = 0 ↔ r0 = 0 := by omega
  -- sign bits
  have hrc_hi : 2 ^ (8 * cb - 1) ≤ rc ↔ r0 < 0 := by omega
  have hb_hi : 2 ^ (8 * cb - 1) ≤ b ↔ sb < 0 := (toSigned_neg_iff cb hcb b hb).symm
  have hxor_lt : rc ^^^ b < cellMod cb := Nat.xor_lt_two_pow hrlt hb
  have hxor_iff : toSigned cb (rc ^^^ b) < 0 ↔ ¬(r0 < 0 ↔ sb < 0) := by
    rw [toSigned_neg_iff cb hcb _ hxor_lt, xor_high_bit cb hcb rc b hrlt hb, hrc_hi, hb_hi]
  have hsq : toSigned cb qc % (cellMod cb : Int) = q0 % (cellMod cb : Int) := by
    rw [toSigned_emod, hqc_int]
    exact Int.emod_emod_of_dvd q0 dvd_rfl
  have hstep : op_sdiv cb b a =
      (if rc ≠ 0 ∧ toSigned cb (rc ^^^ b) < 0 then
        Except.ok ((qc + (cellMod cb - 1)) % cellMod cb, (rc + b) % cellMod cb)
      else Except.ok (qc, rc)) := by
    simp only [op_sdiv, if_neg hb0]
  have hrcM : (rc : Int) % (cellMod cb : Int) = r0 % (cellMod cb : Int) := by
    rw [hrc, toCell_coe_int cb r0]
    exact Int.emod_emod_of_dvd r0 dvd_rfl
  have hbM : ((b : Nat) : Int) % (cellMod cb : Int) = sb % (cellMod cb : Int) :=
    (toSigned_emod cb b).symm
  by_cases hbr : rc ≠ 0 ∧ toSigned cb (rc ^^^ b) < 0
  · -- adjustment branch: decrement the quotient, add the divisor to the remainder
    rw [hstep, if_pos hbr]
    obtain ⟨hbr1, hbr2⟩ := hbr
    rw [hxor_iff] at hbr2
    have hr00 : r0 ≠ 0 := fun h => hbr1 (hrc0.mpr h)
    set r1 := r0 + sb with hr1def
    have hsigns : (r0 < 0 ∧ 0 < sb) ∨ (0 < r0 ∧ sb < 0) := by
      by_cases h1 : r0 < 0 <;> by_cases h2 : sb < 0
      · exact absurd (iff_of_true h1 h2) hbr2
      · exact Or.inl ⟨h1, by omega⟩
      · exact Or.inr ⟨by omega, h2⟩
      · exact absurd (iff_of_false h1 h2) hbr2
    have hr1b : (0 < sb → (0 < r1 ∧ r1 < sb)) ∧ (sb < 0 → (sb < r1 ∧ r1 ≤ 0)) := by
      constructor <;> intro h <;> omega
    have hq_emod : toSigned cb ((qc + (cellMod cb - 1)) % cellMod cb) % (cellMod cb : Int)
        = (q0 - 1) % (cellMod cb : Int) := by
      rw [toSigned_emod, Int.ofNat_emod, Int.emod_emod_of_dvd _ dvd_rfl, Nat.cast_add,
        Nat.cast_sub (show 1 ≤ cellMod cb from hMpos), Nat.cast_one]
      rw [show (qc : Int) + ((cellMod cb : Int) - 1) = ((qc : Int) - 1) + (cellMod cb : Int) * 1
        from by ring]
      rw [Int.add_mul_emod_self_left, Int.sub_emod ((qc : Int)) 1, hqc_int,
        Int.emod_emod_of_dvd q0 dvd_rfl, ← Int.sub_emod]
    have hr_eq : toSigned cb ((rc + b) % cellMod cb) = r1 := by
      apply toSigned_eq cb hcb _ (Nat.mod_lt _ hMpos) r1
      · rw [Int.ofNat_emod, Int.emod_emod_of_dvd _ dvd_rfl, Nat.cast_add,
          Int.add_emod ((rc : Int)) ((b : Nat) : Int), hrcM, hbM, ← Int.add_emod]
      · omega
      · omega
    refine ⟨_, _, rfl, ?_, ?_, ?_⟩
    · -- the division identity, in cell arithmetic
      rw [hr_eq]
      refine Eq.trans (toCell_congr cb _ sa ?_) (toCell_toSigned cb a ha)
      rw [Int.add_emod, Int.mul_emod, hq_emod, ← Int.mul_emod, ← Int.add_emod]
      rw [show (q0 - 1) * sb + r1 = sb * q0 + r0 from by ring, hkey]
    · -- remainder weakly shares the divisor's sign
      rw [hr_eq]
      rcases hsigns with ⟨h1, h2⟩ | ⟨h1, h2⟩
      · rw [Int.sign_eq_one_of_pos h2, mul_one]
        omega
      · rw [Int.sign_eq_neg_one_of_neg h2, mul_neg_one]
        omega
    · -- remainder strictly smaller than the divisor in magnitude
      rw [hr_eq]
      omega
  · -- no adjustment: the truncated quotient and remainder are already floored
    rw [hstep, if_neg hbr]
    have hss : r0 = 0 ∨ (r0 < 0 ↔ sb < 0) := by
      by_cases h0 : rc = 0
      · exact Or.inl (hrc0.mp h0)
      · refine Or.inr ?_
        have h2 : ¬ toSigned cb (rc ^^^ b) < 0 := fun hx => hbr ⟨h0, hx⟩
        rw [hxor_iff] at h2
        exact not_not.mp h2
    have habs_pos : 0 < sb.natAbs := Int.natAbs_pos.mpr hsb0
    refine ⟨_, _, rfl, ?_, ?_, ?_⟩
    · rw [hsr]
      refine Eq.trans (toCell_congr cb _ sa ?_) (toCell_toSigned cb a ha)
      rw [Int.add_emod, Int.mul_emod, hsq, ← Int.mul_emod, ← Int.add_emod]
      rw [show q0 * sb + r0 = sb * q0 + r0 from by ring, hkey]
    · rw [hsr]
      rcases lt_trichotomy sb 0 with h2 | h2 | h2
      · rw [Int.sign_eq_neg_one_of_neg h2, mul_neg_one]
        rcases hss with h0 | hiff
        · omega
        · have : r0 < 0 := hiff.mpr h2
          omega
      · exact absurd h2 hsb0
      · rw [Int.sign_eq_one_of_pos h2, mul_one]
        rcases hss with h0 | hiff
        · omega
        · by_contra hcon
          have hneg : r0 < 0 := by omega
          have := hiff.mp hneg
          omega
    · rw [hsr]
      omega

/-- Witness for C1: 32-bit cells, dividend 7, divisor -3 (as a cell,
4294967293); the floored quotient/remainder laws are obtained from the
theorem at this concrete input. -/
theorem C1_sdiv_floored_witness :
    ∃ q r, op_sdiv 4 4294967293 7 = .ok (q, r) ∧
      toCell 4 (toSigned 4 q * toSigned 4 4294967293 + toSigned 4 r) = 7 ∧
      0 ≤ toSigned 4 r * Int.sign (toSigned 4 4294967293) ∧
      (toSigned 4 r).natAbs < (toSigned 4 4294967293).natAbs :=
  C1_sdiv_floored 4 7 4294967293 (by decide) (by decide) (by decide) (by decide)

/-- C10: the public `push` decrements STK by one cell whether it succeeds or
fails; on translation failure it returns `access_violation` with memory
untouched but STK already decremented, and on success the host word backing
the new STK holds the pushed value while all other host words are unchanged. -/
theorem C10_push_decrements_stk (cb dat stk v : Nat) (translate : Nat → Option Nat)
    (mem : Nat → Nat) :
    (push cb dat translate mem stk v).2.1 = csub cb stk cb ∧
    (translate (cadd cb dat (csub cb stk cb)) = none →
      push cb dat translate mem stk v = (.access_violation, csub cb stk cb, mem)) ∧
    (∀ p, translate (cadd cb dat (csub cb stk cb)) = some p →
      (push cb dat translate mem stk v).1 = .success ∧
      (push cb dat translate mem stk v).2.2 p = v ∧
      ∀ a, a ≠ p → (push cb dat translate mem stk v).2.2 a = mem a) := by
  refine ⟨?_, ?_, ?_⟩
  · cases h : translate (cadd cb dat (csub cb stk cb)) <;> simp [push, h]
  · intro h
    simp [push, h]
  · intro p h
    refine ⟨by simp [push, h], by simp [push, h], ?_⟩
    intro a ha
    simp [push, h, ha]

/-- Witness for C10: with 32-bit cells and DAT = 0, pushing at STK = 8 lands in
the mapped word 0 and succeeds; pushing at STK = 16 decrements STK to 12,
fails to translate and leaves memory untouched. -/
theorem C10_push_decrements_stk_witness :
    (push 4 0 push_translate push_mem 8 7).2.1 = 4 ∧
    (push 4 0 push_translate push_mem 8 7).1 = error.success ∧
    (push 4 0 push_translate push_mem 8 7).2.2 0 = 7 ∧
    push 4 0 push_translate push_mem 16 7 = (error.access_violation, 12, push_mem) := by
  obtain ⟨ha, hb, hc⟩ := C10_push_decrements_stk 4 0 8 7 push_translate push_mem
  obtain ⟨ha2, hb2, hc2⟩ := C10_push_decrements_stk 4 0 16 7 push_translate push_mem
  have hp : push_translate (cadd 4 0 (csub 4 8 4)) = some 0 := by decide
  have hq : push_translate (cadd 4 0 (csub 4 16 4)) = none := by decide
  obtain ⟨h1, h2, h3⟩ := hc 0 hp
  refine ⟨?_, h1, h2, ?_⟩
  · rw [ha]
    decide
  · rw [hb2 hq]
    have h12 : csub 4 16 4 = 12 := by decide
    rw [h12]

/-- C7 (amended): across every callback invocation the registers ALT, FRM,
CIP, STP and STK are restored to their pre-callback values regardless of what
the callback does; but of the register file not only PRI can change: the
unsaved registers HEA, COD and DAT can also be changed by a callback through
the machine pointer. -/
theorem C7_callback_register_effects :
    (∀ f index r, (fire_callback f index r).2.ALT = r.ALT ∧
      (fire_callback f index r).2.FRM = r.FRM ∧
      (fire_callback f index r).2.CIP = r.CIP ∧
      (fire_callback f index r).2.STP = r.STP ∧
      (fire_callback f index r).2.STK = r.STK) ∧
    (∃ f r, (fire_callback f 0 r).2.PRI ≠ r.PRI) ∧
    (∃ f r, (fire_callback f 0 r).2.HEA ≠ r.HEA) ∧
    (∃ f r, (fire_callback f 0 r).2.COD ≠ r.COD) ∧
    (∃ f r, (fire_callback f 0 r).2.DAT ≠ r.DAT) :=
  ⟨fun _ _ _ => ⟨rfl, rfl, rfl, rfl, rfl⟩,
    ⟨cb_bump_pri, regs0, by decide⟩,
    ⟨cb_bump_heap, regs0, by decide⟩,
    ⟨cb_bump_cod, regs0, by decide⟩,
    ⟨cb_bump_dat, regs0, by decide⟩⟩

/-- C7 counterexample: a callback that increments HEA through the machine
pointer leaves HEA changed after `fire_callback` returns, so a register other
than PRI was changed by a callback. -/
theorem C7_heap_not_restored :
    (fire_callback cb_bump_heap 0 regs0).2.HEA ≠ regs0.HEA := by decide

/-- C3 (amended): excluding the two sentinel indices, the broker returns
`invalid_operand` exactly for indices strictly greater than the native count;
an index less than or equal to the count (with the argument-count cell
translating) is dispatched into the native vector at that index, so the index
equal to the count reaches one slot past the end. -/
theorem C3_broker_bounds (cb natives_len index : Nat) (ok : Bool)
    (h1 : index ≠ cbid_single_step cb) (h2 : index ≠ cbid_break cb) :
    (natives_len < index → amx_callback cb natives_len index ok = .err .invalid_operand) ∧
    (index ≤ natives_len → ok = true → amx_callback cb natives_len index ok = .native index) := by
  unfold amx_callback
  rw [if_neg h1, if_neg h2]
  constructor
  · intro h
    rw [if_pos h]
  · intro h hok
    subst hok
    rw [if_neg (by omega), if_pos rfl]

/-- Witness for C3 (amended): one resolved native; index 2 is rejected with
`invalid_operand` while index 1 (equal to the count) is dispatched as a
native. -/
theorem C3_broker_bounds_witness :
    amx_callback 4 1 2 true = cb_route.err error.invalid_operand ∧
    amx_callback 4 1 1 true = cb_route.native 1 := by
  have h1 := C3_broker_bounds 4 1 2 true (by decide) (by decide)
  have h2 := C3_broker_bounds 4 1 1 true (by decide) (by decide)
  exact ⟨h1.1 (by decide), h2.2 (by decide) rfl⟩

/-- C3 counterexample: with exactly one resolved native, index 1 is greater
than or equal to the native count, yet the broker does not return an error -
it dispatches the out-of-bounds native slot 1. -/
theorem C3_broker_off_by_one :
    amx_callback 4 1 1 true = cb_route.native 1 ∧
    ∀ e, amx_callback 4 1 1 true ≠ cb_route.err e := by
  refine ⟨rfl, ?_⟩
  intro e h
  rw [show amx_callback 4 1 1 true = cb_route.native 1 from rfl] at h
  exact cb_route.noConfusion h

/-- C4 (amended): for a virtual address that is not a multiple of
`cell_bytes`, only the paged backing fails because of the misalignment; the
contiguous backing translates every address below the mapped byte size
(rounding down to the containing cell), and the partial-address-space
backing fails exactly when the computed host pointer — the masked aligned
address combined with the stored backing bits — is zero (a null pointer),
a condition independent of the alignment of `va`; whenever that pointer is
nonzero the misaligned address translates to it. -/
theorem C4_translate_alignment (cb ib va : Nat) (mp : Nat → Option Nat × Nat)
    (h : va % cb ≠ 0) :
    paged_translate cb ib mp va = none ∧
    (∀ buf size, va < size → contiguous_translate cb buf size va = some (buf + va / cb)) ∧
    (∀ vb bits,
      (pas_translate cb vb bits va = none ↔
        (va &&& pas_offset_mask_align cb vb) ||| bits = 0) ∧
      ((va &&& pas_offset_mask_align cb vb) ||| bits ≠ 0 →
        pas_translate cb vb bits va =
          some ((va &&& pas_offset_mask_align cb vb) ||| bits))) := by
  refine ⟨?_, ?_, ?_⟩
  · unfold paged_translate
    rw [if_pos h]
  · intro buf size hlt
    unfold contiguous_translate
    rw [if_neg (by omega)]
  · intro vb bits
    simp only [pas_translate]
    refine ⟨⟨fun hn => ?_, fun hz => by rw [if_pos hz]⟩, fun hz => by rw [if_neg hz]⟩
    by_contra hz
    rw [if_neg hz] at hn
    exact Option.noConfusion hn

/-- Witness for C4 (amended) with 32-bit cells and 24 valid bits: at the
misaligned address 1 the paged backing fails, the contiguous backing
translates, and the partial-address-space pointer value is 0 (null) so it
fails too; at the misaligned address 5 the pointer value is 4, so the
partial-address-space backing translates. -/
theorem C4_translate_alignment_witness :
    paged_translate 4 5 (fun _ => (some 0, 64)) 1 = none ∧
    contiguous_translate 4 100 8 1 = some (100 + 1 / 4) ∧
    pas_translate 4 24 0 1 = none ∧
    pas_translate 4 24 0 5 = some 4 := by
  have h1 := C4_translate_alignment 4 5 1 (fun _ => (some 0, 64)) (by decide)
  have h5 := C4_translate_alignment 4 5 5 (fun _ => (some 0, 64)) (by decide)
  refine ⟨h1.1, h1.2.1 100 8 (by decide), ?_, ?_⟩
  · exact ((h1.2.2 24 0).1).mpr (by decide)
  · have he := (h5.2.2 24 0).2 (by decide)
    rw [he]
    decide

/-- C4 counterexample: virtual addresses 1 and 5 are misaligned for 4-byte
cells, yet the contiguous backing (with 8 mapped bytes) translates address 1
and the partial-address-space backing (24 valid bits, backing bits 0)
returns the nonnull host pointer 4 for address 5, so neither backing fails
as the original claim requires of all three. -/
theorem C4_misaligned_translates :
    1 % 4 ≠ 0 ∧ contiguous_translate 4 100 8 1 = some 100 ∧
    5 % 4 ≠ 0 ∧ pas_translate 4 24 0 5 = some 4 := by decide

/-- C2: with 32-bit cells, pre-instruction PRI = 8, ALT = 16 and operand 4,
over a data segment where the cell at address 8 (value 5) differs from the
cell at ALT = 16 (value 7), `OP_CMPS` returns PRI = 0: the source zeroes PRI
before its loop and then reads the first block at `PRI + i` - that is, from
address 0 (value 7, equal to the cell at ALT) - instead of from the
pre-instruction PRI. -/
theorem C2_cmps_ignores_pri :
    op_cmps 4 cmps_data 8 16 4 = .ok 0 ∧ cmps_data 8 ≠ cmps_data 16 := by
  constructor
  · rfl
  · decide

theorem land_two_pow_sub_one (x k : Nat) : x &&& (2 ^ k - 1) = x % 2 ^ k := by
  apply Nat.eq_of_testBit_eq
  intro i
  simp only [Nat.testBit_land, Nat.testBit_two_pow_sub_one, Nat.testBit_mod_two_pow]
  exact Bool.and_comm _ _

theorem land_align_mask (x k n : Nat) (hkn : k ≤ n) (hx : x < 2 ^ n) :
    x &&& (2 ^ n - 2 ^ k) = x / 2 ^ k * 2 ^ k := by
  have h1 : 2 ^ n - 2 ^ k = (2 ^ (n - k) - 1) <<< k := by
    rw [Nat.shiftLeft_eq, Nat.sub_mul, one_mul, ← Nat.pow_add]
    rw [show n - k + k = n from by omega]
  have h2 : x / 2 ^ k * 2 ^ k = (x >>> k) <<< k := by
    rw [Nat.shiftLeft_eq, Nat.shiftRight_eq_div_pow]
  rw [h1, h2]
  apply Nat.eq_of_testBit_eq
  intro i
  simp only [Nat.testBit_land, Nat.testBit_shiftLeft, Nat.testBit_shiftRight,
    Nat.testBit_two_pow_sub_one]
  by_cases hik : k ≤ i
  · by_cases hin : i < n
    · simp [hik, show i - k < n - k from by omega, show k + (i - k) = i from by omega]
    · have hxi : x.testBit i = false :=
        Nat.testBit_lt_two_pow (lt_of_lt_of_le hx (Nat.pow_le_pow_right (by norm_num) (by omega)))
      simp [hik, hxi, show k + (i - k) = i from by omega]
  · simp [hik]

theorem subcell_roundtrip (n s mb old v : Nat) (hs : s + mb ≤ n) :
    ((old &&& ((2 ^ n - 1) ^^^ (2 ^ mb - 1) <<< s % 2 ^ n)) |||
        ((v &&& (2 ^ mb - 1)) <<< s % 2 ^ n)) >>> s &&& (2 ^ mb - 1)
      = v &&& (2 ^ mb - 1) := by
  apply Nat.eq_of_testBit_eq
  intro i
  simp only [Nat.testBit_land, Nat.testBit_lor, Nat.testBit_xor, Nat.testBit_shiftRight,
    Nat.testBit_mod_two_pow, Nat.testBit_shiftLeft, Nat.testBit_two_pow_sub_one]
  by_cases him : i < mb
  · have h1 : s + i < n := by omega
    have h2 : s ≤ s + i := Nat.le_add_right s i
    have h3 : s + i - s = i := by omega
    simp [him, h1, h2, h3]
  · simp [him]

theorem span_fit (k n addr w : Nat) (hkn : k ≤ n) (haddr : addr < 2 ^ n) (hw : 1 ≤ w)
    (hbig : 2 ^ k + w ≤ 2 ^ n)
    (hspan : addr &&& (2 ^ n - 2 ^ k)
      = (addr + w + (2 ^ n - 1)) % 2 ^ n &&& (2 ^ n - 2 ^ k)) :
    addr % 2 ^ k + w ≤ 2 ^ k := by
  have hQ : 0 < 2 ^ n := Nat.two_pow_pos n
  have hP : 0 < 2 ^ k := Nat.two_pow_pos k
  have hEdef : (addr + w + (2 ^ n - 1)) % 2 ^ n = (addr + w - 1) % 2 ^ n := by
    rw [show addr + w + (2 ^ n - 1) = (addr + w - 1) + 2 ^ n * 1 from by omega]
    rw [Nat.add_mul_mod_self_left]
  rw [hEdef, land_align_mask addr k n hkn haddr,
    land_align_mask _ k n hkn (Nat.mod_lt _ hQ)] at hspan
  have h1 := Nat.mod_add_div' addr (2 ^ k)
  have h2 := Nat.mod_add_div' ((addr + w - 1) % 2 ^ n) (2 ^ k)
  have h3 : addr % 2 ^ k < 2 ^ k := Nat.mod_lt _ hP
  have h4 : (addr + w - 1) % 2 ^ n % 2 ^ k < 2 ^ k := Nat.mod_lt _ hP
  rcases le_or_lt (2 ^ n) (addr + w - 1) with hwrap | hnw
  · have hEeq : (addr + w - 1) % 2 ^ n = addr + w - 1 - 2 ^ n := by
      rw [Nat.mod_eq_sub_mod hwrap, Nat.mod_eq_of_lt (by omega)]
    rw [hEeq] at hspan h2 h4
    have h5 : (addr + w - 1 - 2 ^ n) / 2 ^ k * 2 ^ k ≤ addr + w - 1 - 2 ^ n :=
      Nat.div_mul_le_self _ _
    omega
  · have hEeq : (addr + w - 1) % 2 ^ n = addr + w - 1 := Nat.mod_eq_of_lt hnw
    rw [hEeq] at hspan h2 h4
    omega

theorem span_fit_cells (cb addr w : Nat) (hcb : cb = 2 ∨ cb = 4 ∨ cb = 8)
    (hw : w = 1 ∨ w = 2 ∨ w = 4) (haddr : addr < cellMod cb)
    (hspan : addr &&& (cellMod cb - cb)
      = (addr + w + (cellMod cb - 1)) % cellMod cb &&& (cellMod cb - cb)) :
    (addr &&& (cb - 1)) * 8 + 8 * w ≤ 8 * cb := by
  have hw14 : 1 ≤ w ∧ w ≤ 4 := by rcases hw with rfl | rfl | rfl <;> omega
  rcases hcb with rfl | rfl | rfl
  · have hsub : addr &&& (2 - 1) = addr % 2 := by
      norm_num [Nat.and_one_is_mod]
    have hspan' : addr &&& (2 ^ 16 - 2 ^ 1)
        = (addr + w + (2 ^ 16 - 1)) % 2 ^ 16 &&& (2 ^ 16 - 2 ^ 1) := by
      norm_num [cellMod] at hspan ⊢
      exact hspan
    have haddr' : addr < 2 ^ 16 := by
      norm_num [cellMod] at haddr
      exact haddr
    have hfit := span_fit 1 16 addr w (by norm_num) haddr' (by omega) (by norm_num; omega) hspan'
    norm_num at hfit
    rw [hsub]
    omega
  · have hsub : addr &&& (4 - 1) = addr % 4 := by
      have h := land_two_pow_sub_one addr 2
      norm_num at h
      exact h
    have hspan' : addr &&& (2 ^ 32 - 2 ^ 2)
        = (addr + w + (2 ^ 32 - 1)) % 2 ^ 32 &&& (2 ^ 32 - 2 ^ 2) := by
      norm_num [cellMod] at hspan ⊢
      exact hspan
    have haddr' : addr < 2 ^ 32 := by
      norm_num [cellMod] at haddr
      exact haddr
    have hfit := span_fit 2 32 addr w (by norm_num) haddr' (by omega) (by norm_num; omega) hspan'
    norm_num at hfit
    rw [hsub]
    omega
  · have hsub : addr &&& (8 - 1) = addr % 8 := by
      have h := land_two_pow_sub_one addr 3
      norm_num at h
      exact h
    have hspan' : addr &&& (2 ^ 64 - 2 ^ 3)
        = (addr + w + (2 ^ 64 - 1)) % 2 ^ 64 &&& (2 ^ 64 - 2 ^ 3) := by
      norm_num [cellMod] at hspan ⊢
      exact hspan
    have haddr' : addr < 2 ^ 64 := by
      norm_num [cellMod] at haddr
      exact haddr
    have hfit := span_fit 3 64 addr w (by norm_num) haddr' (by omega) (by norm_num; omega) hspan'
    norm_num at hfit
    rw [hsub]
    omega

theorem op_strb_i_ok (cb w : Nat) (data : Nat → Option Nat) (mem : Nat → Nat)
    (pri alt p : Nat) (hw : w = 1 ∨ w = 2 ∨ w = 4)
    (hspan : alt &&& (cellMod cb - cb)
      = (alt + w + (cellMod cb - 1)) % cellMod cb &&& (cellMod cb - cb))
    (hdata : data (alt &&& (cellMod cb - cb)) = some p) :
    op_strb_i cb data mem pri alt w = .ok (fun a =>
      if a = p then
        (mem p &&& ((cellMod cb - 1) ^^^ ((2 ^ (8 * w) - 1) <<< ((alt &&& (cb - 1)) * 8)) % cellMod cb)) |||
          ((pri &&& (2 ^ (8 * w) - 1)) <<< ((alt &&& (cb - 1)) * 8) % cellMod cb)
      else mem a) := by
  have hns : ¬(alt &&& (cellMod cb - cb)
      ≠ (alt + w + (cellMod cb - 1)) % cellMod cb &&& (cellMod cb - cb)) :=
    not_not_intro hspan
  rcases hw with rfl | rfl | rfl <;>
    · simp only [op_strb_i, if_neg hns, hdata]
      norm_num

theorem op_lodb_i_ok (cb w : Nat) (data : Nat → Option Nat) (mem : Nat → Nat)
    (pri p : Nat) (hw : w = 1 ∨ w = 2 ∨ w = 4)
    (hspan : pri &&& (cellMod cb - cb)
      = (pri + w + (cellMod cb - 1)) % cellMod cb &&& (cellMod cb - cb))
    (hdata : data (pri &&& (cellMod cb - cb)) = some p) :
    op_lodb_i cb data mem pri w
      = .ok (mem p >>> ((pri &&& (cb - 1)) * 8) &&& (2 ^ (8 * w) - 1)) := by
  have hns : ¬(pri &&& (cellMod cb - cb)
      ≠ (pri + w + (cellMod cb - 1)) % cellMod cb &&& (cellMod cb - cb)) :=
    not_not_intro hspan
  rcases hw with rfl | rfl | rfl <;>
    · simp only [op_lodb_i, if_neg hns, hdata]
      norm_num

/-- C6: for a width in 1, 2, 4 and a data address whose access lies within one
cell (the source's span check) at a translating aligned address, STRB_I with
the value in PRI followed by LODB_I at the same address yields the value
masked to the width, with no other host word disturbed; an access spanning two
cells is rejected with `invalid_operand` by both instructions, as is any other
width when the span check passes. -/
theorem C6_strb_lodb_roundtrip (cb w addr v p : Nat) (data : Nat → Option Nat)
    (mem : Nat → Nat) (hcb : cb = 2 ∨ cb = 4 ∨ cb = 8) (haddr : addr < cellMod cb)
    (hdata : data (addr &&& (cellMod cb - cb)) = some p) :
    ((w = 1 ∨ w = 2 ∨ w = 4) →
      addr &&& (cellMod cb - cb)
        = (addr + w + (cellMod cb - 1)) % cellMod cb &&& (cellMod cb - cb) →
      ∃ mem2, op_strb_i cb data mem v addr w = .ok mem2 ∧
        op_lodb_i cb data mem2 addr w = .ok (v &&& (2 ^ (8 * w) - 1))) ∧
    (addr &&& (cellMod cb - cb)
        ≠ (addr + w + (cellMod cb - 1)) % cellMod cb &&& (cellMod cb - cb) →
      op_strb_i cb data mem v addr w = .error .invalid_operand ∧
      op_lodb_i cb data mem addr w = .error .invalid_operand) ∧
    (w ≠ 1 → w ≠ 2 → w ≠ 4 →
      op_strb_i cb data mem v addr w = .error .invalid_operand ∧
      op_lodb_i cb data mem addr w = .error .invalid_operand) := by
  refine ⟨?_, ?_, ?_⟩
  · intro hw hspan
    have hs8 := span_fit_cells cb addr w hcb hw haddr hspan
    have hstrb := op_strb_i_ok cb w data mem v addr p hw hspan hdata
    set mem2 : Nat → Nat := fun a =>
      if a = p then
        (mem p &&& ((cellMod cb - 1) ^^^ ((2 ^ (8 * w) - 1) <<< ((addr &&& (cb - 1)) * 8)) % cellMod cb)) |||
          ((v &&& (2 ^ (8 * w) - 1)) <<< ((addr &&& (cb - 1)) * 8) % cellMod cb)
      else mem a with hmem2
    refine ⟨mem2, hstrb, ?_⟩
    have hlodb := op_lodb_i_ok cb w data mem2 addr p hw hspan hdata
    rw [hlodb]
    congr 1
    rw [hmem2]
    simp only [if_true]
    have hcm : cellMod cb = 2 ^ (8 * cb) := rfl
    rw [hcm]
    exact subcell_roundtrip (8 * cb) ((addr &&& (cb - 1)) * 8) (8 * w) (mem p) v hs8
  · intro hspan
    constructor
    · simp only [op_strb_i, if_pos hspan]
    · simp only [op_lodb_i, if_pos hspan]
  · intro hw1 hw2 hw4
    by_cases hspan : addr &&& (cellMod cb - cb)
        = (addr + w + (cellMod cb - 1)) % cellMod cb &&& (cellMod cb - cb)
    · have hns := not_not_intro hspan
      constructor
      · simp only [op_strb_i, if_neg hns, hdata, if_neg hw1, if_neg hw2, if_neg hw4]
      · simp only [op_lodb_i, if_neg hns, hdata, if_neg hw1, if_neg hw2, if_neg hw4]
    · constructor
      · simp only [op_strb_i, if_pos hspan]
      · simp only [op_lodb_i, if_pos hspan]

/-- Witness for C6: 32-bit cells, width 2, address 6 (sub-cell offset 2 of
the cell at 4), value 0xABCD stored over an all-ones cell and read back. -/
theorem C6_strb_lodb_roundtrip_witness :
    ∃ mem2, op_strb_i 4 strb_data strb_mem 43981 6 2 = .ok mem2 ∧
      op_lodb_i 4 strb_data mem2 6 2 = .ok (43981 &&& (2 ^ (8 * 2) - 1)) := by
  have h := C6_strb_lodb_roundtrip 4 2 6 43981 0 strb_data strb_mem
    (by norm_num) (by decide) (by decide)
  exact h.1 (by norm_num) (by decide)

theorem cadd_csub_cadd_le (cb x y y2 z : Nat) (hy : y2 ≤ y) :
    cadd cb (csub cb (cadd cb x y) y2) z = (x + (y - y2) + z) % cellMod cb := by
  have h1 : csub cb (cadd cb x y) y2 = (x + (y - y2)) % cellMod cb := by
    unfold cadd csub toCell
    rw [Int.ofNat_emod]
    have h2 : ((((x + y : Nat) : Int)) % (cellMod cb : Int) - ((y2 : Nat) : Int))
          % (cellMod cb : Int)
        = (((x + (y - y2) : Nat) : Int)) % (cellMod cb : Int) := by
      rw [Int.sub_emod, Int.emod_emod_of_dvd _ dvd_rfl, ← Int.sub_emod]
      congr 1
      push_cast [hy]
      ring
    rw [h2]
    omega
  rw [h1]
  unfold cadd
  rw [Nat.mod_add_mod]

theorem switch_loop_spec (cb : Nat) (code : Nat → Option Nat) (pri : Nat)
    (recs : List (Nat × Nat)) :
    ∀ (c cip0 : Nat), c < cellMod cb →
    (∀ i (h : i < recs.length),
       code ((c + 2 * cb * i) % cellMod cb) = some (recs.get ⟨i, h⟩).1 ∧
       code ((c + 2 * cb * i + cb) % cellMod cb) = some (recs.get ⟨i, h⟩).2) →
    ((∀ i (h : i < recs.length), (recs.get ⟨i, h⟩).1 ≠ pri) →
       switch_loop cb code pri recs.length c cip0 = .ok cip0) ∧
    (∀ i (h : i < recs.length), (recs.get ⟨i, h⟩).1 = pri →
       (∀ j (hj : j < i), (recs.get ⟨j, by omega⟩).1 ≠ pri) →
       switch_loop cb code pri recs.length c cip0
         = .ok ((c + 2 * cb * i + (recs.get ⟨i, h⟩).2) % cellMod cb)) := by
  induction recs with
  | nil =>
    intro c cip0 hc hrecs
    constructor
    · intro _
      rfl
    · intro i h
      exact absurd h (by simp)
  | cons hdr tl ih =>
    intro c cip0 hc hrecs
    have hM := cellMod_pos cb
    have h0 := hrecs 0 (Nat.succ_pos _)
    have hp0 : (c + 2 * cb * 0) % cellMod cb = c := by
      simp [Nat.mod_eq_of_lt hc]
    have hp0b : (c + 2 * cb * 0 + cb) % cellMod cb = (c + cb) % cellMod cb := by
      norm_num
    rw [hp0, hp0b] at h0
    have h0a : code c = some hdr.1 := h0.1
    have h0b : code (cadd cb c cb) = some hdr.2 := h0.2
    -- recursion facts for the tail
    have hc' : (c + 2 * cb) % cellMod cb < cellMod cb := Nat.mod_lt _ hM
    have hrecs' : ∀ i (h : i < tl.length),
        code (((c + 2 * cb) % cellMod cb + 2 * cb * i) % cellMod cb)
          = some (tl.get ⟨i, h⟩).1 ∧
        code (((c + 2 * cb) % cellMod cb + 2 * cb * i + cb) % cellMod cb)
          = some (tl.get ⟨i, h⟩).2 := by
      intro i h
      have hi := hrecs (i + 1) (by simp only [List.length_cons]; omega)
      have hq1 : ((c + 2 * cb) % cellMod cb + 2 * cb * i) % cellMod cb
          = (c + 2 * cb * (i + 1)) % cellMod cb := by
        rw [Nat.mod_add_mod]
        congr 1
        ring
      have hq2 : ((c + 2 * cb) % cellMod cb + 2 * cb * i + cb) % cellMod cb
          = (c + 2 * cb * (i + 1) + cb) % cellMod cb := by
        rw [Nat.add_assoc, Nat.mod_add_mod]
        congr 1
        ring
      rw [hq1, hq2]
      exact hi
    have hih := ih ((c + 2 * cb) % cellMod cb) cip0 hc' hrecs'
    constructor
    · intro hnone
      have hne : pri ≠ hdr.1 := fun he => hnone 0 (Nat.succ_pos _) he.symm
      simp only [List.length_cons, switch_loop, h0a, h0b, if_neg hne]
      exact hih.1 (fun i h => hnone (i + 1) (by simp only [List.length_cons]; omega))
    · intro i h hmatch hprev
      match i with
      | 0 =>
        have heq : pri = hdr.1 := hmatch.symm
        simp only [List.length_cons, switch_loop, h0a, h0b, if_pos heq]
        rw [cadd_csub_cadd_le cb c (2 * cb) (2 * cb) hdr.2 le_rfl]
        have hX0 : ((hdr :: tl).get ⟨0, h⟩).2 = hdr.2 := rfl
        rw [hX0]
        simp
      | Nat.succ j =>
        have hj : j < tl.length := by simp only [List.length_cons] at h; omega
        have hne : pri ≠ hdr.1 := fun he => hprev 0 (Nat.succ_pos _) he.symm
        simp only [List.length_cons, switch_loop, h0a, h0b, if_neg hne]
        have hres := hih.2 j hj hmatch
          (fun j2 hj2 => hprev (j2 + 1) (Nat.succ_lt_succ hj2))
        rw [show cadd cb c (2 * cb) = (c + 2 * cb) % cellMod cb from rfl, hres]
        have hX : ((hdr :: tl).get ⟨j + 1, h⟩).2 = (tl.get ⟨j, hj⟩).2 := rfl
        rw [hX]
        congr 1
        rw [Nat.add_assoc, Nat.mod_add_mod]
        congr 1
        rw [Nat.succ_eq_add_one]
        ring

/-- C5: for a well-formed SWITCH case table (a table of `recs.length` records
lying wholly inside the address space, with the record-count cell holding the
number of records), a marker cell other than the CASETBL opcode yields
`invalid_operand`; otherwise, when PRI equals the test value of a record and
no earlier record matches, CIP becomes that record's self-relative
displacement target, and when no record matches, CIP becomes the
default-branch target. -/
theorem C5_switch (cb : Nat) (code : Nat → Option Nat) (pri cip operand t marker d : Nat)
    (recs : List (Nat × Nat)) (hcb : 1 ≤ cb)
    (ht : cadd cb (csub cb cip (2 * cb)) operand = t)
    (hfit : t + 3 * cb + 2 * cb * recs.length < cellMod cb)
    (hmarker : code t = some marker)
    (hcount : code (t + cb) = some recs.length)
    (hdefault : code (t + 2 * cb) = some d)
    (hrecs : ∀ i (h : i < recs.length),
      code (t + 3 * cb + 2 * cb * i) = some (recs.get ⟨i, h⟩).1 ∧
      code (t + 3 * cb + 2 * cb * i + cb) = some (recs.get ⟨i, h⟩).2) :
    (marker ≠ OP_CASETBL → op_switch cb code pri cip operand = .error .invalid_operand) ∧
    (marker = OP_CASETBL →
      (∀ i (h : i < recs.length), (recs.get ⟨i, h⟩).1 = pri →
        (∀ j (hj : j < i), (recs.get ⟨j, by omega⟩).1 ≠ pri) →
        op_switch cb code pri cip operand
          = .ok ((t + 3 * cb + 2 * cb * i + (recs.get ⟨i, h⟩).2) % cellMod cb)) ∧
      ((∀ i (h : i < recs.length), (recs.get ⟨i, h⟩).1 ≠ pri) →
        op_switch cb code pri cip operand = .ok ((t + cb + d) % cellMod cb))) := by
  have hM := cellMod_pos cb
  have hp1 : cadd cb t cb = t + cb := by
    unfold cadd
    exact Nat.mod_eq_of_lt (by omega)
  have hp2 : cadd cb t (2 * cb) = t + 2 * cb := by
    unfold cadd
    exact Nat.mod_eq_of_lt (by omega)
  have hp3 : cadd cb t (3 * cb) = t + 3 * cb := by
    unfold cadd
    exact Nat.mod_eq_of_lt (by omega)
  have hrecs2 : ∀ i (h : i < recs.length),
      code ((t + 3 * cb + 2 * cb * i) % cellMod cb) = some (recs.get ⟨i, h⟩).1 ∧
      code ((t + 3 * cb + 2 * cb * i + cb) % cellMod cb) = some (recs.get ⟨i, h⟩).2 := by
    intro i h
    have hm1 := Nat.mul_le_mul_left (2 * cb) (show i + 1 ≤ recs.length from by omega)
    have hd2 : 2 * cb * (i + 1) = 2 * cb * i + 2 * cb := by ring
    have hb1 : t + 3 * cb + 2 * cb * i < cellMod cb := by omega
    have hb2 : t + 3 * cb + 2 * cb * i + cb < cellMod cb := by omega
    rw [Nat.mod_eq_of_lt hb1, Nat.mod_eq_of_lt hb2]
    exact hrecs i h
  simp only [op_switch, ht, hmarker]
  constructor
  · intro hmne
    rw [if_pos hmne]
  · intro hmeq
    simp only [if_neg (not_not_intro hmeq), hp1, hcount, hp2, hdefault]
    rw [cadd_csub_cadd_le cb t (3 * cb) (2 * cb) d (by omega),
      show 3 * cb - 2 * cb = cb from by omega, hp3]
    have hspec := switch_loop_spec cb code pri recs (t + 3 * cb)
      ((t + cb + d) % cellMod cb) (by omega) hrecs2
    constructor
    · intro i h hm hprev
      exact hspec.2 i h hm hprev
    · intro hnone
      exact hspec.1 hnone

/-- Witness for C5: the concrete table at address 100 (records (5, 20) and
(7, 40), default displacement 30) reached via CIP 8 and operand 100 with
32-bit cells; PRI = 7 matches the second record and lands at 120 + 40 = 160,
PRI = 9 matches nothing and lands at the default 104 + 30 = 134. -/
theorem C5_switch_witness :
    op_switch 4 switch_code 7 8 100 = .ok 160 ∧
    op_switch 4 switch_code 9 8 100 = .ok 134 := by
  have hrecs : ∀ i (h : i < ([(5, 20), (7, 40)] : List (Nat × Nat)).length),
      switch_code (100 + 3 * 4 + 2 * 4 * i)
        = some ((([(5, 20), (7, 40)] : List (Nat × Nat)).get ⟨i, h⟩).1) ∧
      switch_code (100 + 3 * 4 + 2 * 4 * i + 4)
        = some ((([(5, 20), (7, 40)] : List (Nat × Nat)).get ⟨i, h⟩).2) := by
    intro i h
    have h2 : i < 2 := by simpa using h
    interval_cases i
    · exact ⟨rfl, rfl⟩
    · exact ⟨rfl, rfl⟩
  have h7 := C5_switch 4 switch_code 7 8 100 100 74 30 [(5, 20), (7, 40)]
    (by norm_num) (by decide) (by decide) rfl rfl rfl hrecs
  have h9 := C5_switch 4 switch_code 9 8 100 100 74 30 [(5, 20), (7, 40)]
    (by norm_num) (by decide) (by decide) rfl rfl rfl hrecs
  constructor
  · have hm := (h7.2 rfl).1 1 (by simp) rfl (by
      intro j hj
      have hj0 : j = 0 := by omega
      subst hj0
      exact (by decide : (5 : Nat) ≠ 7))
    exact hm.trans (by rfl)
  · have hd := (h9.2 rfl).2 (by
      intro i h
      have h2 : i < 2 := by simpa using h
      interval_cases i
      · exact (by decide : (5 : Nat) ≠ 9)
      · exact (by decide : (7 : Nat) ≠ 9))
    exact hd.trans (by rfl)

/-- C8: for every buffer of length at least 60, a magic field (offset 4) that
is one of the three supported values but differs from the engine's expected
magic makes init return `wrong_cell_size`, and a magic outside the supported
set makes it return `invalid_file`; the magic check precedes all other header
validation. -/
theorem C8_magic_check (cb : Nat) (buf : List Nat) (reg : List (List Nat))
    (f g : Nat → Option Nat) (hcb : cb = 2 ∨ cb = 4 ∨ cb = 8)
    (hlen : 60 ≤ buf.length) :
    ((read_le16 buf 4 = 0xF1E0 ∨ read_le16 buf 4 = 0xF1E1 ∨ read_le16 buf 4 = 0xF1E2) →
      read_le16 buf 4 ≠ expected_magic cb →
      init cb buf reg f g = .error .wrong_cell_size) ∧
    (read_le16 buf 4 ≠ 0xF1E0 → read_le16 buf 4 ≠ 0xF1E1 → read_le16 buf 4 ≠ 0xF1E2 →
      init cb buf reg f g = .error .invalid_file) := by
  have hn60 : ¬ buf.length < 60 := by omega
  constructor
  · intro hsup hne
    simp only [init, if_neg hn60, if_pos hne, if_pos hsup]
  · intro h1 h2 h3
    have hne : read_le16 buf 4 ≠ expected_magic cb := by
      rcases hcb with rfl | rfl | rfl
      · exact fun hc => h3 (hc.trans (by decide))
      · exact fun hc => h1 (hc.trans (by decide))
      · exact fun hc => h2 (hc.trans (by decide))
    have hnsup : ¬(read_le16 buf 4 = 0xF1E0 ∨ read_le16 buf 4 = 0xF1E1
        ∨ read_le16 buf 4 = 0xF1E2) :=
      fun hc => hc.elim h1 (fun hc2 => hc2.elim h2 h3)
    simp only [init, if_neg hn60, if_pos hne, if_neg hnsup]

/-- Witness for C8: two concrete 60-byte headers on the 32-bit engine - magic
0xF1E1 (64-bit) yields `wrong_cell_size`, magic 0x1234 yields
`invalid_file`. -/
theorem C8_magic_check_witness :
    init 4 magic_buf_64 [] (fun _ => none) (fun _ => none)
      = .error loader_error.wrong_cell_size ∧
    init 4 magic_buf_bad [] (fun _ => none) (fun _ => none)
      = .error loader_error.invalid_file := by
  have h1 := C8_magic_check 4 magic_buf_64 [] (fun _ => none) (fun _ => none)
    (by norm_num) (by decide)
  have h2 := C8_magic_check 4 magic_buf_bad [] (fun _ => none) (fun _ => none)
    (by norm_num) (by decide)
  exact ⟨h1.1 (by decide) (by decide), h2.2 (by decide) (by decide) (by decide)⟩

theorem init_layout_aux (data0 : List Nat) (k i : Nat) (h1 : data0.length ≤ i)
    (h2 : i < (data0 ++ List.replicate k 0).length) :
    (data0 ++ List.replicate k 0).getD i 1 = 0 := by
  rw [List.getD_eq_getElem?_getD, List.getElem?_append_right h1, List.getElem?_replicate]
  rw [List.length_append, List.length_replicate] at h2
  rw [if_pos (by omega)]
  rfl

/-- C9: whenever init succeeds, the data image consists of the
file-initialized cells extended by ceil((stp − hea)/cell_bytes) zero cells
(the header subtraction wrapping at 32 bits), `data_oldsize` is the cell
offset at which the heap begins, and the registers satisfy
STK = STP = (data_size − 1)·cell_bytes and HEA = data_oldsize·cell_bytes in
machine arithmetic (size_t width 64, then reduction to the cell width). -/
theorem C9_init_layout (cb : Nat) (buf : List Nat) (reg : List (List Nat))
    (f g : Nat → Option Nat) (st : LoaderState)
    (hok : init cb buf reg f g = .ok st) :
    st.data.length = st.data_oldsize
        + ((read_le32 buf 24 + 2 ^ 32 - read_le32 buf 20) % 2 ^ 32 + cb - 1) / cb ∧
    (∀ i, st.data_oldsize ≤ i → i < st.data.length → st.data.getD i 1 = 0) ∧
    st.STK = st.STP ∧
    st.STP = (st.data.length + 2 ^ 64 - 1) % 2 ^ 64 * cb % 2 ^ 64 % cellMod cb ∧
    st.HEA = st.data_oldsize * cb % 2 ^ 64 % cellMod cb := by
  simp only [init] at hok
  repeat' split at hok
  all_goals try exact Except.noConfusion hok
  all_goals (
    injection hok with hok
    subst hok
    refine ⟨by simp, fun i h1 h2 => init_layout_aux _ _ i h1 h2, rfl, rfl, rfl⟩)

/-- Witness for C9 on the concrete minimal module `c9_buf` with 32-bit cells:
the data image is two zero cells of pure heap/stack extension, with
STK = STP = 4 and HEA = 0. -/
theorem C9_init_layout_witness :
    c9_state.data.length = c9_state.data_oldsize
        + ((read_le32 c9_buf 24 + 2 ^ 32 - read_le32 c9_buf 20) % 2 ^ 32 + 4 - 1) / 4 ∧
    (∀ i, c9_state.data_oldsize ≤ i → i < c9_state.data.length →
      c9_state.data.getD i 1 = 0) ∧
    c9_state.STK = c9_state.STP ∧
    c9_state.STP = (c9_state.data.length + 2 ^ 64 - 1) % 2 ^ 64 * 4 % 2 ^ 64 % cellMod 4 ∧
    c9_state.HEA = c9_state.data_oldsize * 4 % 2 ^ 64 % cellMod 4 :=
  C9_init_layout 4 c9_buf [] (fun _ => some 0) (fun _ => some 0) c9_state (by rfl)

end Amx
